import Mathlib

/-!
Verification development for a CVRP (capacitated vehicle routing) solver.

The program has three pure components under direct embedding:
`parse_input` (token validation), `create_data_model` (problem data
construction), and `print_solution` (solution decoding/reporting).
The search core is an external routing library configured by
`solve_routing_problem`; its behaviour (cheapest-feasible-arc greedy
construction with a capacity dimension) is modelled from the system
specification, as marked on the individual definitions.

Raw text fields are modelled at token level: each field that Python
would pass to `int` is an `Option Int`, `none` standing for a token
that does not parse as an integer.  Splitting on `,` and `;` is
total in Python, so a raw input is a pair of scalar tokens, a token
list for the demands, and a token-list list for the matrix rows.
-/

namespace VRP

/-- Result of `parse_input`: the validated tuple
`(num_customers, vehicle_capacity, customer_demands, edges)`. -/
structure ParsedInput where
  num_customers : Int
  vehicle_capacity : Int
  customer_demands : List Int
  edges : List (List Int)
deriving Repr, DecidableEq

/-- `int(tok)` in Python: succeeds iff the token is an integer literal. -/
def intTok (t : Option Int) : Except String Int :=
  match t with
  | some k => Except.ok k
  | none => Except.error "Invalid input: invalid literal for int"

/-- `list(map(int, toks))`: the first non-integer token raises. -/
def intToks : List (Option Int) → Except String (List Int)
  | [] => Except.ok []
  | t :: rest =>
    match intTok t with
    | Except.error e => Except.error e
    | Except.ok k =>
      match intToks rest with
      | Except.error e => Except.error e
      | Except.ok ks => Except.ok (k :: ks)

/-- Row-by-row integer conversion of the edges field. -/
def rowToks : List (List (Option Int)) → Except String (List (List Int))
  | [] => Except.ok []
  | r :: rest =>
    match intToks r with
    | Except.error e => Except.error e
    | Except.ok row =>
      match rowToks rest with
      | Except.error e => Except.error e
      | Except.ok rows => Except.ok (row :: rows)

/-- Entry `edges[i][j]` with Python-style indexing (in-range by the checks). -/
def entry (edges : List (List Int)) (i j : Nat) : Int :=
  (edges.getD i []).getD j 0

/-- The body of the doubly nested validation loop of `parse_input` for one
index pair: symmetry, then zero diagonal, then nonzero off-diagonal. -/
def checkEntry (edges : List (List Int)) (p : Nat × Nat) : Except String Unit :=
  if entry edges p.1 p.2 ≠ entry edges p.2 p.1 then
    Except.error "Invalid input: The edges matrix must be symmetric."
  else if p.1 = p.2 ∧ entry edges p.1 p.2 ≠ 0 then
    Except.error "Invalid input: The diagonal elements of the edges matrix must be zero."
  else if p.1 ≠ p.2 ∧ entry edges p.1 p.2 = 0 then
    Except.error "Invalid input: The non-diagonal elements of the edges matrix must be non-zero."
  else
    Except.ok ()

/-- Runs `checkEntry` over index pairs in loop order. -/
def checkEntries (edges : List (List Int)) : List (Nat × Nat) → Except String Unit
  | [] => Except.ok ()
  | p :: ps =>
    match checkEntry edges p with
    | Except.error e => Except.error e
    | Except.ok _ => checkEntries edges ps

/-- Index pairs `(i, j)` for `i, j < m` in the order of the nested loops. -/
def squareIdx (m : Nat) : List (Nat × Nat) :=
  (List.range m).flatMap fun i => (List.range m).map fun j => (i, j)

/-- `parse_input`: converts the four raw fields and validates demand count,
matrix shape, symmetry, zero diagonal and nonzero off-diagonal, in source
order; any failure raises a single `Invalid input: ...` message. -/
def parse_input (num_customers_tok vehicle_capacity_tok : Option Int)
    (customer_demand_toks : List (Option Int))
    (edge_toks : List (List (Option Int))) : Except String ParsedInput :=
  match intTok num_customers_tok with
  | Except.error e => Except.error e
  | Except.ok num_customers =>
  match intTok vehicle_capacity_tok with
  | Except.error e => Except.error e
  | Except.ok vehicle_capacity =>
  match intToks customer_demand_toks with
  | Except.error e => Except.error e
  | Except.ok customer_demands =>
  if (customer_demands.length : Int) ≠ num_customers then
    Except.error "Invalid input: The length of customer demands must be equal to the number of customers."
  else
  match rowToks edge_toks with
  | Except.error e => Except.error e
  | Except.ok edges =>
  if (edges.length : Int) ≠ num_customers + 1 then
    Except.error "Invalid input: The edges matrix must be a square matrix of size (num_customers + 1) x (num_customers + 1)."
  else if edges.any fun row => row.length ≠ edges.length then
    Except.error "Invalid input: The edges matrix must be a square matrix of size (num_customers + 1) x (num_customers + 1)."
  else
  match checkEntries edges (squareIdx edges.length) with
  | Except.error e => Except.error e
  | Except.ok _ =>
    Except.ok ⟨num_customers, vehicle_capacity, customer_demands, edges⟩

/-- The values of a token list in which every token is an integer. -/
def tokVals : List (Option Int) → List Int
  | [] => []
  | none :: rest => tokVals rest
  | some k :: rest => k :: tokVals rest

/-- A raw input on which `parse_input` succeeds: every token an integer,
demand count matching, matrix square of size `n + 1`, symmetric, zero
diagonal, nonzero off-diagonal. -/
def goodInput (num_customers_tok vehicle_capacity_tok : Option Int)
    (customer_demand_toks : List (Option Int))
    (edge_toks : List (List (Option Int))) : Prop :=
  num_customers_tok.isSome ∧ vehicle_capacity_tok.isSome ∧
  (∀ t ∈ customer_demand_toks, t.isSome) ∧
  (∀ r ∈ edge_toks, ∀ t ∈ r, t.isSome) ∧
  ((customer_demand_toks.length : Int) = num_customers_tok.getD 0) ∧
  ((edge_toks.length : Int) = num_customers_tok.getD 0 + 1) ∧
  (∀ r ∈ edge_toks, r.length = edge_toks.length) ∧
  (∀ i < edge_toks.length, ∀ j < edge_toks.length,
    entry (edge_toks.map tokVals) i j = entry (edge_toks.map tokVals) j i ∧
    (i = j → entry (edge_toks.map tokVals) i j = 0) ∧
    (i ≠ j → entry (edge_toks.map tokVals) i j ≠ 0))

instance (a b c d) : Decidable (goodInput a b c d) := by
  unfold goodInput; infer_instance

/-! ## Problem data (`create_data_model`) -/

/-- The dictionary built by `create_data_model`. -/
structure DataModel where
  distance_matrix : List (List Int)
  demands : List Int
  vehicle_capacities : List Int
  num_vehicles : Int
  depot : Nat
deriving Repr, DecidableEq

/-- `create_data_model`: prepends the depot demand `0`, gives every vehicle
the same capacity, sets `num_vehicles = num_customers`, and asserts that
the demand list (depot included) has length `num_customers + 1`; the failed
assertion is `none`. -/
def create_data_model (num_customers vehicle_capacity : Int)
    (customer_demands : List Int) (edges : List (List Int)) : Option DataModel :=
  let data : DataModel :=
    { distance_matrix := edges
      demands := 0 :: customer_demands
      vehicle_capacities := List.replicate num_customers.toNat vehicle_capacity
      num_vehicles := num_customers
      depot := 0 }
  if (data.demands.length : Int) = num_customers + 1 then some data else none

/-- `data['demands'][i]` (indexing is in range in every actual use). -/
def demandOf (data : DataModel) (i : Nat) : Int :=
  data.demands.getD i 0

/-- `data['vehicle_capacities'][v]`. -/
def capOf (data : DataModel) (v : Nat) : Int :=
  data.vehicle_capacities.getD v 0

/-- `data['distance_matrix'][i][j]`. -/
def distOf (data : DataModel) (i j : Nat) : Int :=
  (data.distance_matrix.getD i []).getD j 0

/-- The vehicle count as a natural number. -/
def numVehicles (data : DataModel) : Nat :=
  data.num_vehicles.toNat

/-- The customer count: demand entries minus the depot entry. -/
def numCustomers (data : DataModel) : Nat :=
  data.demands.length - 1

/-! ## Construction heuristic

Modelled from the spec: the search core lives in the external routing
library, configured with a `Capacity` dimension (slack 0, start cumul
fixed to zero, per-vehicle capacities) and the cheapest-arc first
solution strategy.  Following the specification, the heuristic keeps,
for every vehicle simultaneously, a current end-of-partial-route
pointer (initially the vehicle's start node, bound to the depot) and
repeatedly appends, among all (vehicle, unvisited customer) pairs
whose insertion keeps the load within capacity, the pair of minimal
arc cost from the vehicle's current end, ties broken by lowest
vehicle index then lowest customer index; it fails if customers
remain but no feasible pair exists.

The search state is the list of per-vehicle chains of visited
customers; loads, route ends and the visited set are derived. -/

/-- Cumulative load of a chain: the sum of its members' demands. -/
def chainLoad (data : DataModel) (chain : List Nat) : Int :=
  (chain.map (demandOf data)).sum

/-- Current end of a partial route: the last appended customer, or the
depot for an empty chain. -/
def chainEnd (chain : List Nat) : Nat :=
  chain.getLast?.getD 0

/-- Modelled from the spec: customers not yet assigned to any chain,
in increasing id order. -/
def unassigned (data : DataModel) (chains : List (List Nat)) : List Nat :=
  (List.range' 1 (numCustomers data)).filter fun c => c ∉ chains.flatten

/-- Modelled from the spec: appending customer `c` keeps vehicle `v`'s
cumulative load within its capacity. -/
def feasiblePair (data : DataModel) (chains : List (List Nat)) (v c : Nat) : Prop :=
  chainLoad data (chains.getD v []) + demandOf data c ≤ capOf data v

instance (data chains v c) : Decidable (feasiblePair data chains v c) := by
  unfold feasiblePair; infer_instance

/-- Arc cost from vehicle `v`'s current end to customer `c`. -/
def pairCost (data : DataModel) (chains : List (List Nat)) (p : Nat × Nat) : Int :=
  distOf data (chainEnd (chains.getD p.1 [])) p.2

/-- Modelled from the spec: all feasible (vehicle, unvisited customer)
pairs, enumerated by vehicle index then customer id. -/
def candidatePairs (data : DataModel) (chains : List (List Nat)) : List (Nat × Nat) :=
  (List.range (numVehicles data)).flatMap fun v =>
    (unassigned data chains).filterMap fun c =>
      if feasiblePair data chains v c then some (v, c) else none

/-- First element of minimal cost, so that on equal cost the earlier
candidate in enumeration order wins. -/
def pickMin (cost : Nat × Nat → Int) : List (Nat × Nat) → Option (Nat × Nat)
  | [] => none
  | p :: rest =>
    match pickMin cost rest with
    | none => some p
    | some q => if cost p ≤ cost q then some p else some q

/-- Modelled from the spec: the greedy selection of the next
(vehicle, customer) pair. -/
def selectPair (data : DataModel) (chains : List (List Nat)) : Option (Nat × Nat) :=
  pickMin (pairCost data chains) (candidatePairs data chains)

/-- Appends the chosen customer to the chosen vehicle's chain. -/
def applyStep (chains : List (List Nat)) (p : Nat × Nat) : List (List Nat) :=
  chains.set p.1 (chains.getD p.1 [] ++ [p.2])

/-- Modelled from the spec: the greedy main loop.  Each step assigns one
customer, so `numCustomers` steps of fuel suffice; the loop fails when
customers remain but no pair is feasible. -/
def greedyRun (data : DataModel) : Nat → List (List Nat) → Option (List (List Nat))
  | 0, chains => if unassigned data chains = [] then some chains else none
  | fuel + 1, chains =>
    if unassigned data chains = [] then some chains
    else
      match selectPair data chains with
      | none => none
      | some p => greedyRun data fuel (applyStep chains p)

/-- Modelled from the spec: the complete construction, from empty chains. -/
def constructionHeuristic (data : DataModel) : Option (List (List Nat)) :=
  greedyRun data (numCustomers data) (List.replicate (numVehicles data) [])

/-! ## Solution decoding and reporting (`print_solution`)

`print_solution` walks each vehicle's finalized chain.  A route is the
list of `(node, route_load, route_distance)` triples the source builds:
the start node (the depot, with the arc cost from the start to itself),
each visited customer with running load and distance, and the final
return to the depot. -/

/-- One decoded route entry: node id, cumulative load, cumulative
distance, exactly as appended to `route` in the source. -/
abbrev RouteEntry := Nat × Int × Int

/-- The loop body of the route walk: consume the remaining chain,
carrying the previous node, running load and running distance; the
final entry is the return to the depot. -/
def walkChain (data : DataModel) : List Nat → Nat → Int → Int → List RouteEntry
  | [], prev, load, dist =>
    [(0, load + demandOf data 0, dist + distOf data prev 0)]
  | c :: rest, prev, load, dist =>
    (c, load + demandOf data c, dist + distOf data prev c) ::
      walkChain data rest c (load + demandOf data c) (dist + distOf data prev c)

/-- The full decoded route of one chain, start node included. -/
def routeOf (data : DataModel) (chain : List Nat) : List RouteEntry :=
  (0, demandOf data 0, distOf data 0 0) ::
    walkChain data chain 0 (demandOf data 0) (distOf data 0 0)

/-- A reported route with the trip number printed in its header line. -/
structure TripReport where
  trip : Nat
  route : List RouteEntry
deriving Repr, DecidableEq

/-- The decoded content of the report text: the printed routes with
their trip numbers, and the grand totals. -/
structure SolutionReport where
  trips : List TripReport
  total_distance : Int
  total_load : Int
deriving Repr, DecidableEq

/-- The per-vehicle loop of `print_solution`: routes with more than two
entries (at least one customer) are printed and consume a trip number;
every vehicle's final distance and load enter the totals. -/
def reportLoop (data : DataModel) (chains : List (List Nat)) :
    List Nat → Nat → List TripReport × Int × Int
  | [], _ => ([], 0, 0)
  | v :: vs, tripNo =>
    let route := routeOf data (chains.getD v [])
    let last := route.getLast?.getD (0, 0, 0)
    if 2 < route.length then
      let rest := reportLoop data chains vs (tripNo + 1)
      (⟨tripNo, route⟩ :: rest.1, last.2.2 + rest.2.1, last.2.1 + rest.2.2)
    else
      let rest := reportLoop data chains vs tripNo
      (rest.1, last.2.2 + rest.2.1, last.2.1 + rest.2.2)

/-- `print_solution`, decoded: iterates the vehicles in index order with
the trip counter starting at 1. -/
def print_solution (data : DataModel) (chains : List (List Nat)) : SolutionReport :=
  let r := reportLoop data chains (List.range (numVehicles data)) 1
  ⟨r.1, r.2.1, r.2.2⟩

/-- One ` node Load(l) Distance(d) ->` segment; the source hard-codes
`Distance(0)` on the first segment. -/
def renderEntry (first : Bool) (e : RouteEntry) : String :=
  " " ++ toString e.1 ++ " Load(" ++ toString e.2.1 ++ ") Distance("
    ++ (if first then "0" else toString e.2.2) ++ ") ->"

/-- The segments of a route's node line, first entry marked. -/
def renderEntriesFrom : Bool → List RouteEntry → String
  | _, [] => ""
  | first, e :: es => renderEntry first e ++ renderEntriesFrom false es

/-- The text block of one printed route. -/
def renderTrip (t : TripReport) : String :=
  let last := t.route.getLast?.getD (0, 0, 0)
  "Route for trip " ++ toString t.trip ++ ":\n"
    ++ renderEntriesFrom true t.route.dropLast
    ++ " " ++ toString last.1 ++ " Load(" ++ toString last.2.1
    ++ ") Distance(" ++ toString last.2.2 ++ ")\n"
    ++ "Distance of the route: " ++ toString last.2.2 ++ "m\n"
    ++ "Load of the route: " ++ toString last.2.1 ++ "\n\n"

/-- The full report text returned by `print_solution`. -/
def renderReport (rep : SolutionReport) : String :=
  String.join (rep.trips.map renderTrip)
    ++ "\nTotal distance of all routes: " ++ toString rep.total_distance ++ "m\n"
    ++ "Total load of all routes: " ++ toString rep.total_load

/-- `solve_routing_problem`: builds the data model (a failed assertion is
`none`), runs the construction, and renders either the report or the
fixed infeasibility message. -/
def solve_routing_problem (num_customers vehicle_capacity : Int)
    (customer_demands : List Int) (edges : List (List Int)) : Option String :=
  match create_data_model num_customers vehicle_capacity customer_demands edges with
  | none => none
  | some data =>
    match constructionHeuristic data with
    | none => some "No solution found."
    | some chains => some (renderReport (print_solution data chains))

/-! ## Lemmas about `parse_input` -/

theorem tokVals_length {ts : List (Option Int)} (h : ∀ t ∈ ts, t.isSome) :
    (tokVals ts).length = ts.length := by
  induction ts with
  | nil => rfl
  | cons t rest ih =>
    cases t with
    | none => exact absurd (h none (List.mem_cons_self _ _)) (by simp)
    | some k =>
      simp only [tokVals, List.length_cons]
      rw [ih fun t ht => h t (List.mem_cons_of_mem _ ht)]

theorem intToks_ok {ts : List (Option Int)} {vs : List Int}
    (h : intToks ts = Except.ok vs) :
    (∀ t ∈ ts, t.isSome) ∧ vs = tokVals ts := by
  induction ts generalizing vs with
  | nil =>
    simp only [intToks] at h
    cases h
    exact ⟨by simp, rfl⟩
  | cons t rest ih =>
    cases t with
    | none => simp [intToks, intTok] at h
    | some k =>
      simp only [intToks, intTok] at h
      cases hrest : intToks rest with
      | error e => rw [hrest] at h; cases h
      | ok ws =>
        rw [hrest] at h
        cases h
        obtain ⟨h1, h2⟩ := ih hrest
        refine ⟨?_, by simp [tokVals, h2]⟩
        intro x hx
        rcases List.mem_cons.mp hx with rfl | hx
        · rfl
        · exact h1 x hx

theorem intToks_ok_of_isSome {ts : List (Option Int)} (h : ∀ t ∈ ts, t.isSome) :
    intToks ts = Except.ok (tokVals ts) := by
  induction ts with
  | nil => rfl
  | cons t rest ih =>
    cases t with
    | none => exact absurd (h none (List.mem_cons_self _ _)) (by simp)
    | some k =>
      simp only [intToks, intTok, tokVals]
      rw [ih fun t ht => h t (List.mem_cons_of_mem _ ht)]

theorem intToks_error {ts : List (Option Int)} (h : ¬ ∀ t ∈ ts, t.isSome) :
    ∃ msg, intToks ts = Except.error msg := by
  induction ts with
  | nil => exact absurd (by simp) h
  | cons t rest ih =>
    cases t with
    | none => exact ⟨"Invalid input: invalid literal for int", rfl⟩
    | some k =>
      have hrest : ¬ ∀ t ∈ rest, t.isSome := by
        intro hall
        exact h fun x hx => by
          rcases List.mem_cons.mp hx with rfl | hx
          · rfl
          · exact hall x hx
      obtain ⟨msg, hmsg⟩ := ih hrest
      exact ⟨msg, by simp [intToks, intTok, hmsg]⟩

theorem rowToks_ok {rs : List (List (Option Int))} {vs : List (List Int)}
    (h : rowToks rs = Except.ok vs) :
    (∀ r ∈ rs, ∀ t ∈ r, t.isSome) ∧ vs = rs.map tokVals := by
  induction rs generalizing vs with
  | nil =>
    simp only [rowToks] at h
    cases h
    exact ⟨by simp, rfl⟩
  | cons r rest ih =>
    simp only [rowToks] at h
    cases hr : intToks r with
    | error e => rw [hr] at h; cases h
    | ok row =>
      rw [hr] at h
      cases hrest : rowToks rest with
      | error e => rw [hrest] at h; cases h
      | ok rows =>
        rw [hrest] at h
        cases h
        obtain ⟨h1, h2⟩ := ih hrest
        obtain ⟨hr1, hr2⟩ := intToks_ok hr
        refine ⟨?_, by simp [h2, hr2]⟩
        intro x hx
        rcases List.mem_cons.mp hx with rfl | hx
        · exact hr1
        · exact h1 x hx

theorem rowToks_ok_of_isSome {rs : List (List (Option Int))}
    (h : ∀ r ∈ rs, ∀ t ∈ r, t.isSome) :
    rowToks rs = Except.ok (rs.map tokVals) := by
  induction rs with
  | nil => rfl
  | cons r rest ih =>
    simp only [rowToks, List.map_cons]
    rw [intToks_ok_of_isSome (h r (List.mem_cons_self _ _)),
      ih fun x hx => h x (List.mem_cons_of_mem _ hx)]

theorem rowToks_error {rs : List (List (Option Int))}
    (h : ¬ ∀ r ∈ rs, ∀ t ∈ r, t.isSome) :
    ∃ msg, rowToks rs = Except.error msg := by
  induction rs with
  | nil => exact absurd (by simp) h
  | cons r rest ih =>
    by_cases hr : ∀ t ∈ r, t.isSome
    · have hrest : ¬ ∀ x ∈ rest, ∀ t ∈ x, t.isSome := by
        intro hall
        exact h fun x hx => by
          rcases List.mem_cons.mp hx with rfl | hx
          · exact hr
          · exact hall x hx
      obtain ⟨msg, hmsg⟩ := ih hrest
      exact ⟨msg, by simp [rowToks, intToks_ok_of_isSome hr, hmsg]⟩
    · obtain ⟨msg, hmsg⟩ := intToks_error hr
      exact ⟨msg, by simp [rowToks, hmsg]⟩

theorem checkEntry_ok_iff {edges : List (List Int)} {p : Nat × Nat} :
    checkEntry edges p = Except.ok () ↔
      (entry edges p.1 p.2 = entry edges p.2 p.1 ∧
       (p.1 = p.2 → entry edges p.1 p.2 = 0) ∧
       (p.1 ≠ p.2 → entry edges p.1 p.2 ≠ 0)) := by
  unfold checkEntry
  split_ifs with h1 h2 h3
  · simp only [false_iff]
    intro hc
    exact h1 hc.1
  · simp only [false_iff]
    intro hc
    exact h2.2 (hc.2.1 h2.1)
  · simp only [false_iff]
    intro hc
    exact hc.2.2 h3.1 h3.2
  · simp only [true_iff]
    push_neg at h1 h2 h3
    refine ⟨h1, h2, fun hne => h3 hne⟩

theorem checkEntry_isOk_or_error {edges : List (List Int)} (p : Nat × Nat) :
    checkEntry edges p = Except.ok () ∨ ∃ msg, checkEntry edges p = Except.error msg := by
  unfold checkEntry
  split_ifs <;> simp

theorem checkEntries_ok_of {edges : List (List Int)} {ps : List (Nat × Nat)}
    (h : ∀ p ∈ ps, checkEntry edges p = Except.ok ()) :
    checkEntries edges ps = Except.ok () := by
  induction ps with
  | nil => rfl
  | cons p rest ih =>
    simp only [checkEntries]
    rw [h p (List.mem_cons_self _ _)]
    exact ih fun q hq => h q (List.mem_cons_of_mem _ hq)

theorem checkEntries_ok {edges : List (List Int)} {ps : List (Nat × Nat)}
    (h : checkEntries edges ps = Except.ok ()) :
    ∀ p ∈ ps, checkEntry edges p = Except.ok () := by
  induction ps with
  | nil => simp
  | cons p rest ih =>
    simp only [checkEntries] at h
    cases hp : checkEntry edges p with
    | error e => rw [hp] at h; cases h
    | ok u =>
      rw [hp] at h
      intro q hq
      rcases List.mem_cons.mp hq with rfl | hq
      · cases u; exact hp
      · exact ih h q hq

theorem checkEntries_error {edges : List (List Int)} {ps : List (Nat × Nat)}
    (h : ¬ ∀ p ∈ ps, checkEntry edges p = Except.ok ()) :
    ∃ msg, checkEntries edges ps = Except.error msg := by
  induction ps with
  | nil => exact absurd (by simp) h
  | cons p rest ih =>
    rcases @checkEntry_isOk_or_error edges p with hp | ⟨msg, hmsg⟩
    · have hrest : ¬ ∀ q ∈ rest, checkEntry edges q = Except.ok () := by
        intro hall
        exact h fun q hq => by
          rcases List.mem_cons.mp hq with rfl | hq
          · exact hp
          · exact hall q hq
      obtain ⟨msg, hmsg⟩ := ih hrest
      exact ⟨msg, by simp [checkEntries, hp, hmsg]⟩
    · exact ⟨msg, by simp [checkEntries, hmsg]⟩

theorem mem_squareIdx {m : Nat} {p : Nat × Nat} :
    p ∈ squareIdx m ↔ p.1 < m ∧ p.2 < m := by
  cases p with
  | mk i j =>
    simp only [squareIdx, List.mem_flatMap, List.mem_map, List.mem_range]
    constructor
    · rintro ⟨a, ha, b, hb, h⟩
      cases h
      exact ⟨ha, hb⟩
    · rintro ⟨hi, hj⟩
      exact ⟨i, hi, j, hj, rfl⟩

theorem parse_input_ok {a b : Option Int} {c : List (Option Int)}
    {d : List (List (Option Int))} {out : ParsedInput}
    (h : parse_input a b c d = Except.ok out) :
    goodInput a b c d ∧
      out = ⟨a.getD 0, b.getD 0, tokVals c, d.map tokVals⟩ := by
  cases a with
  | none => simp [parse_input, intTok] at h
  | some na =>
  cases b with
  | none => simp [parse_input, intTok] at h
  | some nb =>
  simp only [parse_input, intTok] at h
  cases hc : intToks c with
  | error e => rw [hc] at h; cases h
  | ok ds =>
  rw [hc] at h
  dsimp only at h
  obtain ⟨hcall, rfl⟩ := intToks_ok hc
  by_cases hlen : ((tokVals c).length : Int) = na
  case neg => rw [if_pos hlen] at h; cases h
  rw [if_neg (fun hne => hne hlen)] at h
  cases hd : rowToks d with
  | error e => rw [hd] at h; cases h
  | ok es =>
  rw [hd] at h
  dsimp only at h
  obtain ⟨hdall, rfl⟩ := rowToks_ok hd
  by_cases hlen2 : ((d.map tokVals).length : Int) = na + 1
  case neg => rw [if_pos hlen2] at h; cases h
  rw [if_neg (fun hne => hne hlen2)] at h
  by_cases hsq : (d.map tokVals).any
      (fun row => decide (row.length ≠ (d.map tokVals).length)) = true
  · rw [if_pos hsq] at h; cases h
  · rw [if_neg hsq] at h
    cases hce : checkEntries (d.map tokVals) (squareIdx (d.map tokVals).length) with
    | error e => rw [hce] at h; cases h
    | ok u =>
      cases u
      rw [hce] at h
      cases h
      have hrowlen : ∀ r ∈ d, r.length = d.length := by
        intro r hr
        have hmem : tokVals r ∈ d.map tokVals := List.mem_map_of_mem _ hr
        have : ¬ ((tokVals r).length ≠ (d.map tokVals).length) := by
          intro hne
          exact hsq (List.any_eq_true.mpr ⟨tokVals r, hmem, by simpa using hne⟩)
        push_neg at this
        rw [tokVals_length (hdall r hr), List.length_map] at this
        exact this
      have hents := checkEntries_ok hce
      refine ⟨⟨rfl, rfl, hcall, hdall, ?_, ?_, hrowlen, ?_⟩, rfl⟩
      · rw [← tokVals_length hcall]
        exact hlen
      · simpa using hlen2
      · intro i hi j hj
        have := checkEntry_ok_iff.mp
          (hents (i, j) (mem_squareIdx.mpr (by simpa using ⟨hi, hj⟩)))
        exact this

theorem parse_input_ok_of_good {a b : Option Int} {c : List (Option Int)}
    {d : List (List (Option Int))} (h : goodInput a b c d) :
    parse_input a b c d
      = Except.ok ⟨a.getD 0, b.getD 0, tokVals c, d.map tokVals⟩ := by
  obtain ⟨ha, hb, hc, hd, hlen, hlen2, hsq, hent⟩ := h
  obtain ⟨na, rfl⟩ := Option.isSome_iff_exists.mp ha
  obtain ⟨nb, rfl⟩ := Option.isSome_iff_exists.mp hb
  simp only [parse_input, intTok]
  rw [intToks_ok_of_isSome hc, rowToks_ok_of_isSome hd]
  dsimp only
  rw [if_neg (fun hne => hne (by rw [tokVals_length hc]; exact hlen))]
  rw [if_neg (fun hne => hne (by rw [List.length_map]; exact hlen2))]
  rw [if_neg ?hany, checkEntries_ok_of ?hok]
  · rfl
  case hany =>
    intro hany
    obtain ⟨x, hx, hpx⟩ := List.any_eq_true.mp hany
    obtain ⟨r, hr, rfl⟩ := List.mem_map.mp hx
    rw [decide_eq_true_iff] at hpx
    exact hpx (by rw [tokVals_length (hd r hr), List.length_map]; exact hsq r hr)
  case hok =>
    intro p hp
    obtain ⟨h1, h2⟩ := mem_squareIdx.mp hp
    rw [List.length_map] at h1 h2
    exact checkEntry_ok_iff.mpr (hent p.1 h1 p.2 h2)

/-- C6: `parse_input` raises a single descriptive `ValueError` message
exactly when the raw input has a non-integer token, a demand count not
matching `num_customers`, a matrix that is not `(n+1) × (n+1)`, an
asymmetric entry, a nonzero diagonal entry, or a zero off-diagonal
entry — that is, exactly when `goodInput` fails — and on every other
input returns the parsed
`(num_customers, vehicle_capacity, demands, matrix)` tuple. -/
theorem parse_input_error_iff (a b : Option Int) (c : List (Option Int))
    (d : List (List (Option Int))) :
    (goodInput a b c d →
      parse_input a b c d
        = Except.ok ⟨a.getD 0, b.getD 0, tokVals c, d.map tokVals⟩) ∧
    (¬ goodInput a b c d → ∃ msg, parse_input a b c d = Except.error msg) := by
  refine ⟨parse_input_ok_of_good, ?_⟩
  intro hbad
  cases hp : parse_input a b c d with
  | error msg => exact ⟨msg, rfl⟩
  | ok out => exact absurd (parse_input_ok hp).1 hbad

theorem parse_input_error_iff_witness :
    parse_input (some 2) (some 10) [some 3, some 4]
        [[some 0, some 1, some 2], [some 1, some 0, some 3], [some 2, some 3, some 0]]
      = Except.ok ⟨2, 10, [3, 4], [[0, 1, 2], [1, 0, 3], [2, 3, 0]]⟩ ∧
    (∃ msg, parse_input none (some 10) [some 3] [[some 0]] = Except.error msg) := by
  constructor
  · exact (parse_input_error_iff (some 2) (some 10) [some 3, some 4]
      [[some 0, some 1, some 2], [some 1, some 0, some 3], [some 2, some 3, some 0]]).1
      (by decide)
  · exact (parse_input_error_iff none (some 10) [some 3] [[some 0]]).2 (by decide)

/-- C7 counterexample: `parse_input` accepts a tuple with a non-positive
vehicle capacity, a negative customer demand, and a negative (hence not
strictly positive) off-diagonal matrix entry; the sign constraints of the
claim are not enforced. -/
theorem parse_input_sign_counterexample :
    parse_input (some 1) (some (-5)) [some (-3)]
        [[some 0, some (-1)], [some (-1), some 0]]
      = Except.ok ⟨1, -5, [-3], [[0, -1], [-1, 0]]⟩ ∧
    ¬ (0 < (-5 : Int)) ∧ ((-3 : Int) < 0) ∧
    entry [[0, -1], [-1, 0]] 0 1 = -1 ∧ ¬ (0 < entry [[0, -1], [-1, 0]] 0 1) := by
  refine ⟨rfl, by decide, by decide, rfl, by decide⟩

/-- C7 (amended): every tuple successfully returned by `parse_input` has
demand count equal to `num_customers` and an `(n+1) × (n+1)` matrix that is
symmetric with zero diagonal and *nonzero* off-diagonal entries; no sign
constraint on the capacity, the demands, or the off-diagonal entries is
enforced. -/
theorem parse_input_ok_tuple_props (a b : Option Int) (c : List (Option Int))
    (d : List (List (Option Int))) (out : ParsedInput)
    (h : parse_input a b c d = Except.ok out) :
    (out.customer_demands.length : Int) = out.num_customers ∧
    (out.edges.length : Int) = out.num_customers + 1 ∧
    (∀ r ∈ out.edges, r.length = out.edges.length) ∧
    (∀ i < out.edges.length, ∀ j < out.edges.length,
      entry out.edges i j = entry out.edges j i ∧
      (i = j → entry out.edges i j = 0) ∧
      (i ≠ j → entry out.edges i j ≠ 0)) := by
  obtain ⟨hg, rfl⟩ := parse_input_ok h
  obtain ⟨ha, hb, hc, hd, hlen, hlen2, hsq, hent⟩ := hg
  refine ⟨?_, ?_, ?_, ?_⟩
  · rw [show (ParsedInput.mk (a.getD 0) (b.getD 0) (tokVals c)
        (d.map tokVals)).customer_demands = tokVals c from rfl, tokVals_length hc]
    exact hlen
  · rw [show (ParsedInput.mk (a.getD 0) (b.getD 0) (tokVals c)
        (d.map tokVals)).edges = d.map tokVals from rfl, List.length_map]
    exact hlen2
  · intro r hr
    obtain ⟨r0, hr0, rfl⟩ := List.mem_map.mp hr
    show (tokVals r0).length = (d.map tokVals).length
    rw [tokVals_length (hd r0 hr0), List.length_map]
    exact hsq r0 hr0
  · intro i hi j hj
    rw [show (ParsedInput.mk (a.getD 0) (b.getD 0) (tokVals c)
        (d.map tokVals)).edges = d.map tokVals from rfl, List.length_map] at hi hj
    exact hent i hi j hj

theorem parse_input_ok_tuple_props_witness :
    (([3, 4] : List Int).length : Int) = 2 ∧
    (([[0, 1, 2], [1, 0, 3], [2, 3, 0]] : List (List Int)).length : Int) = 2 + 1 ∧
    (∀ r ∈ ([[0, 1, 2], [1, 0, 3], [2, 3, 0]] : List (List Int)),
      r.length = ([[0, 1, 2], [1, 0, 3], [2, 3, 0]] : List (List Int)).length) ∧
    (∀ i < ([[0, 1, 2], [1, 0, 3], [2, 3, 0]] : List (List Int)).length,
      ∀ j < ([[0, 1, 2], [1, 0, 3], [2, 3, 0]] : List (List Int)).length,
      entry [[0, 1, 2], [1, 0, 3], [2, 3, 0]] i j
        = entry [[0, 1, 2], [1, 0, 3], [2, 3, 0]] j i ∧
      (i = j → entry [[0, 1, 2], [1, 0, 3], [2, 3, 0]] i j = 0) ∧
      (i ≠ j → entry [[0, 1, 2], [1, 0, 3], [2, 3, 0]] i j ≠ 0)) := by
  exact parse_input_ok_tuple_props (some 2) (some 10) [some 3, some 4]
    [[some 0, some 1, some 2], [some 1, some 0, some 3], [some 2, some 3, some 0]]
    ⟨2, 10, [3, 4], [[0, 1, 2], [1, 0, 3], [2, 3, 0]]⟩ rfl

/-! ## Lemmas about `create_data_model` -/

/-- C9: `create_data_model` fails exactly when the demand list length does
not equal the vehicle count `num_customers`, and otherwise returns the
model with depot demand 0, `num_customers` vehicles, and every vehicle
capacity equal to the given capacity. -/
theorem create_data_model_spec (n cap : Int) (ds : List Int) (es : List (List Int)) :
    (create_data_model n cap ds es = none ↔ (ds.length : Int) ≠ n) ∧
    (∀ m, create_data_model n cap ds es = some m →
      demandOf m 0 = 0 ∧ m.num_vehicles = n ∧
      ∀ cv ∈ m.vehicle_capacities, cv = cap) := by
  have hcond : (((0 :: ds).length : Nat) : Int) = n + 1 ↔ (ds.length : Int) = n := by
    simp only [List.length_cons]
    push_cast
    omega
  unfold create_data_model
  dsimp only
  split_ifs with h
  · refine ⟨⟨(fun hh => by cases hh), fun hne => absurd (hcond.mp h) hne⟩, ?_⟩
    intro m hm
    cases hm
    exact ⟨rfl, rfl, fun cv hcv => List.eq_of_mem_replicate hcv⟩
  · refine ⟨⟨fun _ => fun heq => h (hcond.mpr heq), fun _ => rfl⟩, ?_⟩
    intro m hm
    cases hm

theorem create_data_model_spec_witness :
    demandOf ⟨[[0, 1, 2], [1, 0, 3], [2, 3, 0]], [0, 3, 4], [10, 10], 2, 0⟩ 0 = 0 ∧
    (DataModel.mk [[0, 1, 2], [1, 0, 3], [2, 3, 0]] [0, 3, 4] [10, 10] 2 0).num_vehicles = 2 ∧
    (∀ cv ∈ (DataModel.mk [[0, 1, 2], [1, 0, 3], [2, 3, 0]]
        [0, 3, 4] [10, 10] 2 0).vehicle_capacities, cv = 10) := by
  exact (create_data_model_spec 2 10 [3, 4] [[0, 1, 2], [1, 0, 3], [2, 3, 0]]).2
    ⟨[[0, 1, 2], [1, 0, 3], [2, 3, 0]], [0, 3, 4], [10, 10], 2, 0⟩ rfl

/-! ## Lemmas about `print_solution` -/

theorem walkChain_length (data : DataModel) :
    ∀ (ch : List Nat) (prev : Nat) (l d : Int),
      (walkChain data ch prev l d).length = ch.length + 1 := by
  intro ch
  induction ch with
  | nil => intro prev l d; rfl
  | cons c rest ih =>
    intro prev l d
    simp only [walkChain, List.length_cons, ih]

theorem routeOf_length (data : DataModel) (ch : List Nat) :
    (routeOf data ch).length = ch.length + 2 := by
  simp only [routeOf, List.length_cons, walkChain_length]

theorem two_lt_routeOf_length (data : DataModel) (ch : List Nat) :
    2 < (routeOf data ch).length ↔ ch ≠ [] := by
  rw [routeOf_length]
  cases ch <;> simp

theorem reportLoop_trip_numbers (data : DataModel) (chains : List (List Nat)) :
    ∀ (vs : List Nat) (t : Nat),
      (reportLoop data chains vs t).1.map TripReport.trip
        = List.range' t (reportLoop data chains vs t).1.length := by
  intro vs
  induction vs with
  | nil => intro t; rfl
  | cons v rest ih =>
    intro t
    simp only [reportLoop]
    split_ifs with h
    · simp only [List.map_cons, List.length_cons, List.range'_succ]
      rw [ih (t + 1)]
    · exact ih t

theorem reportLoop_trips_length (data : DataModel) (chains : List (List Nat)) :
    ∀ (vs : List Nat) (t : Nat),
      (reportLoop data chains vs t).1.length
        = (vs.filter fun v => decide (chains.getD v [] ≠ [])).length := by
  intro vs
  induction vs with
  | nil => intro t; rfl
  | cons v rest ih =>
    intro t
    by_cases h : chains.getD v [] = []
    · have h' : chains[v]?.getD [] = [] := by
        simpa [List.getD, List.get?_eq_getElem?] using h
      simp only [reportLoop, List.filter_cons]
      rw [if_neg (by rw [two_lt_routeOf_length]; simp [h'])]
      simp [h', ih]
    · have h' : ¬ chains[v]?.getD [] = [] := by
        simpa [List.getD, List.get?_eq_getElem?] using h
      simp only [reportLoop, List.filter_cons]
      rw [if_pos ((two_lt_routeOf_length data _).mpr h)]
      simp [h', ih]

/-! ## Lemmas about the construction heuristic -/

theorem pickMin_eq_none {cost : Nat × Nat → Int} {l : List (Nat × Nat)} :
    pickMin cost l = none ↔ l = [] := by
  cases l with
  | nil => simp [pickMin]
  | cons p rest =>
    simp only [pickMin]
    cases h : pickMin cost rest with
    | none => simp
    | some q =>
      dsimp only
      split_ifs <;> simp

theorem pickMin_mem {cost : Nat × Nat → Int} :
    ∀ {l : List (Nat × Nat)} {p}, pickMin cost l = some p → p ∈ l := by
  intro l
  induction l with
  | nil => intro p h; cases h
  | cons a rest ih =>
    intro p h
    simp only [pickMin] at h
    cases hr : pickMin cost rest with
    | none =>
      rw [hr] at h
      cases h
      exact List.mem_cons_self _ _
    | some b =>
      rw [hr] at h
      dsimp only at h
      split_ifs at h
      · cases h; exact List.mem_cons_self _ _
      · cases h; exact List.mem_cons_of_mem _ (ih hr)

theorem pickMin_le {cost : Nat × Nat → Int} :
    ∀ {l : List (Nat × Nat)} {p}, pickMin cost l = some p →
      ∀ q ∈ l, cost p ≤ cost q := by
  intro l
  induction l with
  | nil => intro p h; cases h
  | cons a rest ih =>
    intro p h q hq
    simp only [pickMin] at h
    cases hr : pickMin cost rest with
    | none =>
      rw [hr] at h
      cases h
      have : rest = [] := pickMin_eq_none.mp hr
      subst this
      rcases List.mem_cons.mp hq with rfl | hq
      · exact le_refl _
      · cases hq
    | some b =>
      rw [hr] at h
      dsimp only at h
      split_ifs at h with hc
      · cases h
        rcases List.mem_cons.mp hq with rfl | hq
        · exact le_refl _
        · exact le_trans hc (ih hr q hq)
      · cases h
        rcases List.mem_cons.mp hq with rfl | hq
        · exact le_of_lt (lt_of_not_le hc)
        · exact ih hr q hq

theorem pickMin_first {cost : Nat × Nat → Int} (R : Nat × Nat → Nat × Nat → Prop) :
    ∀ {l : List (Nat × Nat)} {p}, l.Pairwise R → pickMin cost l = some p →
      ∀ q ∈ l, cost p = cost q → p = q ∨ R p q := by
  intro l
  induction l with
  | nil => intro p _ h; cases h
  | cons a rest ih =>
    intro p hpw h q hq hcq
    obtain ⟨hhead, htail⟩ := List.pairwise_cons.mp hpw
    simp only [pickMin] at h
    cases hr : pickMin cost rest with
    | none =>
      rw [hr] at h
      cases h
      rcases List.mem_cons.mp hq with rfl | hq
      · exact Or.inl rfl
      · exact Or.inr (hhead q hq)
    | some b =>
      rw [hr] at h
      dsimp only at h
      split_ifs at h with hc
      · cases h
        rcases List.mem_cons.mp hq with rfl | hq
        · exact Or.inl rfl
        · exact Or.inr (hhead q hq)
      · cases h
        rcases List.mem_cons.mp hq with rfl | hq
        · exact absurd (le_of_eq hcq.symm) hc
        · exact ih htail hr q hq hcq

theorem mem_unassigned {data : DataModel} {chains : List (List Nat)} {c : Nat} :
    c ∈ unassigned data chains ↔
      1 ≤ c ∧ c < 1 + numCustomers data ∧ c ∉ chains.flatten := by
  simp only [unassigned, List.mem_filter, List.mem_range'_1, decide_eq_true_eq]
  tauto

theorem mem_candidatePairs {data : DataModel} {chains : List (List Nat)}
    {p : Nat × Nat} :
    p ∈ candidatePairs data chains ↔
      p.1 < numVehicles data ∧ p.2 ∈ unassigned data chains ∧
        feasiblePair data chains p.1 p.2 := by
  cases p with
  | mk v c =>
    simp only [candidatePairs, List.mem_flatMap, List.mem_filterMap, List.mem_range]
    constructor
    · rintro ⟨v', hv', c', hc', hif⟩
      split_ifs at hif with hf
      cases hif
      exact ⟨hv', hc', hf⟩
    · rintro ⟨hv, hc, hf⟩
      exact ⟨v, hv, c, hc, by rw [if_pos hf]⟩

theorem chainLoad_append (data : DataModel) (l : List Nat) (c : Nat) :
    chainLoad data (l ++ [c]) = chainLoad data l + demandOf data c := by
  simp [chainLoad]

/-- The invariant of the greedy search state: one chain per vehicle, no
customer in two chains or twice in one, every assigned id a real customer,
and every nonempty prefix of every chain within the vehicle's capacity. -/
structure GoodState (data : DataModel) (chains : List (List Nat)) : Prop where
  len_eq : chains.length = numVehicles data
  nodup : chains.flatten.Nodup
  mem_range : ∀ c ∈ chains.flatten, 1 ≤ c ∧ c ≤ numCustomers data
  prefix_le : ∀ v, v < numVehicles data → ∀ k, 1 ≤ k →
    k ≤ (chains.getD v []).length →
    chainLoad data ((chains.getD v []).take k) ≤ capOf data v

theorem getD_replicate_nil : ∀ (n v : Nat),
    (List.replicate n ([] : List Nat)).getD v [] = [] := by
  intro n
  induction n with
  | zero => intro v; rfl
  | succ m ih =>
    intro v
    cases v with
    | zero => rfl
    | succ w => exact ih w

theorem goodState_init (data : DataModel) :
    GoodState data (List.replicate (numVehicles data) []) := by
  have hflat : (List.replicate (numVehicles data) ([] : List Nat)).flatten = [] := by
    simp
  refine ⟨List.length_replicate _ _, ?_, ?_, ?_⟩
  · rw [hflat]; exact List.nodup_nil
  · intro c hc; rw [hflat] at hc; cases hc
  · intro v _ k hk1 hk2
    rw [getD_replicate_nil] at hk2
    simp only [List.length_nil] at hk2
    omega

theorem applyStep_length (chains : List (List Nat)) (p : Nat × Nat) :
    (applyStep chains p).length = chains.length :=
  List.length_set chains _ _

theorem flatten_applyStep {chains : List (List Nat)} {v c : Nat}
    (h : v < chains.length) :
    (applyStep chains (v, c)).flatten.Perm (c :: chains.flatten) := by
  induction chains generalizing v with
  | nil => cases h
  | cons ch rest ih =>
    cases v with
    | zero =>
      show ((ch ++ [c]) :: rest).flatten.Perm _
      rw [List.flatten_cons, List.flatten_cons, List.append_assoc]
      exact List.perm_middle
    | succ w =>
      show (ch :: applyStep rest (w, c)).flatten.Perm _
      rw [List.flatten_cons, List.flatten_cons]
      exact ((ih (Nat.lt_of_succ_lt_succ h)).append_left ch).trans List.perm_middle

theorem getD_applyStep_self : ∀ {chains : List (List Nat)} {v c : Nat},
    v < chains.length →
    (applyStep chains (v, c)).getD v [] = chains.getD v [] ++ [c] := by
  intro chains
  induction chains with
  | nil => intro v c h; cases h
  | cons ch rest ih =>
    intro v c h
    cases v with
    | zero => rfl
    | succ w => exact ih (Nat.lt_of_succ_lt_succ h)

theorem getD_applyStep_ne : ∀ {chains : List (List Nat)} {v c w : Nat}, w ≠ v →
    (applyStep chains (v, c)).getD w [] = chains.getD w [] := by
  intro chains
  induction chains with
  | nil => intro v c w _; rfl
  | cons ch rest ih =>
    intro v c w hne
    cases v with
    | zero =>
      cases w with
      | zero => exact absurd rfl hne
      | succ u => rfl
    | succ s =>
      cases w with
      | zero => rfl
      | succ u => exact ih fun hh => hne (by rw [hh])

theorem goodState_step {data : DataModel} {chains : List (List Nat)}
    {p : Nat × Nat} (hg : GoodState data chains)
    (hp : selectPair data chains = some p) :
    GoodState data (applyStep chains p) := by
  obtain ⟨v, c⟩ := p
  have hmem := mem_candidatePairs.mp (pickMin_mem hp)
  obtain ⟨hv, hcu, hf⟩ := hmem
  obtain ⟨hc1, hc2, hcnot⟩ := mem_unassigned.mp hcu
  have hvlen : v < chains.length := by rw [hg.len_eq]; exact hv
  have hperm := @flatten_applyStep chains v c hvlen
  refine ⟨?_, ?_, ?_, ?_⟩
  · rw [applyStep_length, hg.len_eq]
  · rw [hperm.nodup_iff]
    exact List.nodup_cons.mpr ⟨hcnot, hg.nodup⟩
  · intro x hx
    rcases List.mem_cons.mp (hperm.mem_iff.mp hx) with rfl | hx'
    · exact ⟨hc1, by omega⟩
    · exact hg.mem_range x hx'
  · intro w hw k hk1 hk2
    by_cases hwv : w = v
    · subst hwv
      rw [getD_applyStep_self hvlen] at hk2 ⊢
      rw [List.length_append, List.length_singleton] at hk2
      by_cases hkle : k ≤ (chains.getD w []).length
      · rw [List.take_append_of_le_length hkle]
        exact hg.prefix_le w hw k hk1 hkle
      · have hk : k = (chains.getD w []).length + 1 := by omega
        have htake : (chains.getD w [] ++ [c]).take k = chains.getD w [] ++ [c] := by
          apply List.take_of_length_le
          simp [hk]
        rw [htake, chainLoad_append]
        exact hf
    · rw [getD_applyStep_ne hwv] at hk2 ⊢
      exact hg.prefix_le w hw k hk1 hk2

theorem greedyRun_some {data : DataModel} :
    ∀ {fuel : Nat} {chains final : List (List Nat)}, GoodState data chains →
      greedyRun data fuel chains = some final →
      GoodState data final ∧ unassigned data final = [] := by
  intro fuel
  induction fuel with
  | zero =>
    intro chains final hg h
    simp only [greedyRun] at h
    split_ifs at h with hu
    cases h
    exact ⟨hg, hu⟩
  | succ m ih =>
    intro chains final hg h
    simp only [greedyRun] at h
    split_ifs at h with hu
    · cases h; exact ⟨hg, hu⟩
    · cases hs : selectPair data chains with
      | none => rw [hs] at h; cases h
      | some p => rw [hs] at h; exact ih (goodState_step hg hs) h

theorem unassigned_nil_covers {data : DataModel} {chains : List (List Nat)}
    (h : unassigned data chains = []) {c : Nat} (h1 : 1 ≤ c)
    (h2 : c ≤ numCustomers data) : c ∈ chains.flatten := by
  by_contra hnot
  have hm : c ∈ unassigned data chains := mem_unassigned.mpr ⟨h1, by omega, hnot⟩
  rw [h] at hm
  cases hm

theorem create_data_model_eq {n cap : Int} {ds : List Int} {es : List (List Int)}
    {data : DataModel} (hd : create_data_model n cap ds es = some data) :
    data = ⟨es, 0 :: ds, List.replicate n.toNat cap, n, 0⟩ ∧ n = (ds.length : Int) := by
  unfold create_data_model at hd
  dsimp only at hd
  split_ifs at hd with h
  cases hd
  refine ⟨rfl, ?_⟩
  simp only [List.length_cons] at h
  push_cast at h
  omega

theorem walkChain_nodes (data : DataModel) :
    ∀ (ch : List Nat) (prev : Nat) (l d : Int),
      (walkChain data ch prev l d).map Prod.fst = ch ++ [0] := by
  intro ch
  induction ch with
  | nil => intro prev l d; rfl
  | cons c rest ih =>
    intro prev l d
    simp only [walkChain, List.map_cons, ih, List.cons_append]

theorem routeOf_nodes (data : DataModel) (ch : List Nat) :
    (routeOf data ch).map Prod.fst = 0 :: (ch ++ [0]) := by
  simp only [routeOf, List.map_cons, walkChain_nodes]

theorem count_flatten (c : Nat) :
    ∀ l : List (List Nat), l.flatten.count c = (l.map (List.count c)).sum := by
  intro l
  induction l with
  | nil => rfl
  | cons x rest ih =>
    rw [List.flatten_cons, List.count_append, List.map_cons, List.sum_cons, ih]

theorem getD_range_map {α : Type} (l : List α) (dflt : α) :
    (List.range l.length).map (fun i => l.getD i dflt) = l := by
  induction l with
  | nil => rfl
  | cons a rest ih =>
    rw [List.length_cons, List.range_succ_eq_map, List.map_cons, List.map_map]
    have h0 : (a :: rest).getD 0 dflt = a := rfl
    have hcomp : ((fun i => (a :: rest).getD i dflt) ∘ Nat.succ)
        = fun i => rest.getD i dflt := rfl
    rw [h0, hcomp, ih]

theorem reportLoop_node_count (data : DataModel) (chains : List (List Nat))
    {c : Nat} (hc : 1 ≤ c) :
    ∀ (vs : List Nat) (t : Nat),
      (((reportLoop data chains vs t).1.map fun tr => tr.route.map Prod.fst).flatten.count c)
        = (vs.map fun v => (chains.getD v []).count c).sum := by
  intro vs
  induction vs with
  | nil => intro t; rfl
  | cons v rest ih =>
    intro t
    by_cases h : chains.getD v [] = []
    · have h' : chains[v]?.getD [] = [] := by
        simpa [List.getD, List.get?_eq_getElem?] using h
      simp only [reportLoop]
      rw [if_neg (by rw [two_lt_routeOf_length]; simp [h']), List.map_cons, List.sum_cons,
        h, List.count_nil, ih]
      omega
    · simp only [reportLoop]
      rw [if_pos ((two_lt_routeOf_length data _).mpr h)]
      simp only [List.map_cons, List.flatten_cons, List.count_append, List.sum_cons]
      rw [ih (t + 1), routeOf_nodes, List.count_cons_of_ne (by omega), List.count_append]
      have h0 : List.count c [0] = 0 := by
        rw [List.count_eq_zero]
        intro hmem
        simp only [List.mem_singleton] at hmem
        omega
      rw [h0]
      omega

/-- C2: on every instance on which the construction succeeds, each customer
id in `1..n` occurs exactly once among the nodes of the reported routes:
full coverage, no duplicates, no omissions. -/
theorem solve_coverage (n cap : Int) (ds : List Int) (es : List (List Int))
    (data : DataModel) (chains : List (List Nat))
    (hd : create_data_model n cap ds es = some data)
    (hs : constructionHeuristic data = some chains) :
    ∀ c, 1 ≤ c → c ≤ ds.length →
      (((print_solution data chains).trips.map
          fun tr => tr.route.map Prod.fst).flatten.count c) = 1 := by
  intro c hc1 hc2
  obtain ⟨hdata, hn⟩ := create_data_model_eq hd
  subst hdata
  obtain ⟨hgood, hun⟩ := greedyRun_some (goodState_init _) hs
  have hnc : numCustomers ⟨es, 0 :: ds, List.replicate n.toNat cap, n, 0⟩ = ds.length := by
    simp [numCustomers]
  have hmem : c ∈ chains.flatten :=
    unassigned_nil_covers hun hc1 (by rw [hnc]; exact hc2)
  have hcount : chains.flatten.count c = 1 :=
    List.count_eq_one_of_mem hgood.nodup hmem
  show (((reportLoop _ chains (List.range (numVehicles _)) 1).1.map
      fun tr => tr.route.map Prod.fst).flatten.count c) = 1
  rw [reportLoop_node_count _ chains hc1 _ 1]
  rw [← hgood.len_eq]
  have hmaps : (List.range chains.length).map (fun v => (chains.getD v []).count c)
      = chains.map (List.count c) := by
    have := getD_range_map chains []
    calc (List.range chains.length).map (fun v => (chains.getD v []).count c)
        = ((List.range chains.length).map fun v => chains.getD v []).map
            (List.count c) := by rw [List.map_map]; rfl
      _ = chains.map (List.count c) := by rw [this]
  rw [hmaps, ← count_flatten, hcount]

theorem chainLoad_cons (data : DataModel) (c : Nat) (l : List Nat) :
    chainLoad data (c :: l) = demandOf data c + chainLoad data l := by
  simp [chainLoad]

theorem getD_nonneg {l : List Int} (h : ∀ x ∈ l, 0 ≤ x) (i : Nat) :
    0 ≤ l.getD i 0 := by
  by_cases hi : i < l.length
  · rw [List.getD_eq_getElem l 0 hi]
    exact h _ (List.getElem_mem hi)
  · push_neg at hi
    rw [List.getD_eq_default l 0 hi]

theorem getD_replicate_of_lt {α : Type} (a d : α) :
    ∀ {m v : Nat}, v < m → (List.replicate m a).getD v d = a := by
  intro m
  induction m with
  | zero => intro v h; cases h
  | succ k ih =>
    intro v h
    cases v with
    | zero => rfl
    | succ w => exact ih (Nat.lt_of_succ_lt_succ h)

theorem reportLoop_routes_mem (data : DataModel) (chains : List (List Nat)) :
    ∀ (vs : List Nat) (t : Nat), ∀ tr ∈ (reportLoop data chains vs t).1,
      ∃ v ∈ vs, tr.route = routeOf data (chains.getD v []) ∧ chains.getD v [] ≠ [] := by
  intro vs
  induction vs with
  | nil => intro t tr htr; cases htr
  | cons v rest ih =>
    intro t tr htr
    by_cases h : chains.getD v [] = []
    · have h' : chains[v]?.getD [] = [] := by
        simpa [List.getD, List.get?_eq_getElem?] using h
      simp only [reportLoop] at htr
      rw [if_neg (by rw [two_lt_routeOf_length]; simp [h'])] at htr
      obtain ⟨w, hw, hh⟩ := ih t tr htr
      exact ⟨w, List.mem_cons_of_mem _ hw, hh⟩
    · simp only [reportLoop] at htr
      rw [if_pos ((two_lt_routeOf_length data _).mpr h)] at htr
      rcases List.mem_cons.mp htr with rfl | htr'
      · exact ⟨v, List.mem_cons_self _ _, rfl, h⟩
      · obtain ⟨w, hw, hh⟩ := ih (t + 1) tr htr'
        exact ⟨w, List.mem_cons_of_mem _ hw, hh⟩

theorem walkChain_load_succ (data : DataModel) :
    ∀ (ch : List Nat) (prev : Nat) (l d : Int) (e : RouteEntry), e.2.1 = l →
      ∀ i, i + 1 < (e :: walkChain data ch prev l d).length →
        ((e :: walkChain data ch prev l d).getD (i + 1) (0, 0, 0)).2.1
          = ((e :: walkChain data ch prev l d).getD i (0, 0, 0)).2.1
            + demandOf data ((e :: walkChain data ch prev l d).getD (i + 1) (0, 0, 0)).1 := by
  intro ch
  induction ch with
  | nil =>
    intro prev l d e he i hi
    cases i with
    | zero => show l + demandOf data 0 = e.2.1 + demandOf data 0; rw [he]
    | succ j =>
      exfalso
      have hlen : (e :: walkChain data ([] : List Nat) prev l d).length = 2 := rfl
      rw [hlen] at hi
      omega
  | cons c rest ih =>
    intro prev l d e he i hi
    cases i with
    | zero =>
      show l + demandOf data c = e.2.1 + demandOf data c
      rw [he]
    | succ j =>
      have := ih c (l + demandOf data c) (d + distOf data prev c)
        (c, l + demandOf data c, d + distOf data prev c) rfl j
        (by simpa [walkChain] using hi)
      exact this

theorem walkChain_load_mem (data : DataModel) :
    ∀ (ch : List Nat) (prev : Nat) (l d : Int), ∀ e ∈ walkChain data ch prev l d,
      (∃ k, 1 ≤ k ∧ k ≤ ch.length ∧ e.2.1 = l + chainLoad data (ch.take k)) ∨
      e.2.1 = l + chainLoad data ch + demandOf data 0 := by
  intro ch
  induction ch with
  | nil =>
    intro prev l d e he
    simp only [walkChain, List.mem_singleton] at he
    subst he
    right
    simp [chainLoad]
  | cons c rest ih =>
    intro prev l d e he
    rcases List.mem_cons.mp he with rfl | he'
    · left
      refine ⟨1, le_refl 1, by simp, ?_⟩
      rw [List.take_succ_cons, List.take_zero, chainLoad_cons]
      simp [chainLoad]
    · rcases ih c (l + demandOf data c) (d + distOf data prev c) e he' with
        ⟨k, hk1, hk2, hk3⟩ | hlast
      · left
        refine ⟨k + 1, by omega, by simp only [List.length_cons]; omega, ?_⟩
        rw [List.take_succ_cons, chainLoad_cons, hk3]
        ring
      · right
        rw [hlast, chainLoad_cons]
        ring

/-- C1: for every feasible solve, on every reported route the cumulative
load is 0 at the start node, each subsequent cumulative equals the previous
plus the demand of the node reached, and every prefix cumulative is at most
the vehicle's capacity (all capacities equal `cap`). -/
theorem solve_capacity (n cap : Int) (ds : List Int) (es : List (List Int))
    (data : DataModel) (chains : List (List Nat))
    (hd : create_data_model n cap ds es = some data)
    (hs : constructionHeuristic data = some chains)
    (hds : ∀ x ∈ ds, 0 ≤ x) :
    ∀ tr ∈ (print_solution data chains).trips,
      ((tr.route.getD 0 (0, 0, 0)).2.1 = 0) ∧
      (∀ i, i + 1 < tr.route.length →
        (tr.route.getD (i + 1) (0, 0, 0)).2.1
          = (tr.route.getD i (0, 0, 0)).2.1
            + demandOf data ((tr.route.getD (i + 1) (0, 0, 0)).1)) ∧
      (∀ e ∈ tr.route, e.2.1 ≤ cap) := by
  intro tr htr
  obtain ⟨hdata, hn⟩ := create_data_model_eq hd
  obtain ⟨hgood, _⟩ := greedyRun_some (goodState_init data) hs
  obtain ⟨v, hv, hroute, hne⟩ :=
    reportLoop_routes_mem data chains (List.range (numVehicles data)) 1 tr htr
  rw [List.mem_range] at hv
  have hdm0 : demandOf data 0 = 0 := by rw [hdata]; rfl
  have hcapv : capOf data v = cap := by
    rw [hdata]
    exact getD_replicate_of_lt cap 0 (by rw [hdata] at hv; exact hv)
  have hdemnn : ∀ i, 0 ≤ demandOf data i := by
    intro i
    rw [hdata]
    apply getD_nonneg
    intro x hx
    rcases List.mem_cons.mp hx with rfl | hx'
    · exact le_refl 0
    · exact hds x hx'
  have hlen1 : 1 ≤ (chains.getD v []).length := by
    cases hch0 : chains.getD v [] with
    | nil => exact absurd hch0 hne
    | cons a b => simp
  have hprefix := hgood.prefix_le v hv
  rw [hcapv] at hprefix
  have hcapnn : 0 ≤ cap := by
    have h1 := hprefix 1 (le_refl 1) hlen1
    have h2 : 0 ≤ chainLoad data ((chains.getD v []).take 1) := by
      cases hch0 : chains.getD v [] with
      | nil => exact absurd hch0 hne
      | cons a b =>
        rw [List.take_succ_cons, List.take_zero, chainLoad_cons]
        simp only [chainLoad, List.map_nil, List.sum_nil, add_zero]
        exact hdemnn a
    omega
  refine ⟨?_, ?_, ?_⟩
  · rw [hroute]
    exact hdm0
  · rw [hroute]
    exact walkChain_load_succ data (chains.getD v []) 0 _ _ _ rfl
  · intro e he
    rw [hroute] at he
    rcases List.mem_cons.mp he with rfl | he'
    · show demandOf data 0 ≤ cap
      rw [hdm0]
      exact hcapnn
    · rcases walkChain_load_mem data (chains.getD v []) 0 _ _ e he' with
        ⟨k, hk1, hk2, hk3⟩ | hlast
      · rw [hk3, hdm0, zero_add]
        exact hprefix k hk1 hk2
      · rw [hlast, hdm0, zero_add, add_zero]
        have := hprefix (chains.getD v []).length hlen1 (le_refl _)
        rwa [List.take_length] at this

theorem walkChain_ne_nil (data : DataModel) (ch : List Nat) (prev : Nat) (l d : Int) :
    walkChain data ch prev l d ≠ [] := by
  cases ch <;> simp [walkChain]

theorem getLast_getD_cons {α : Type} (x z : α) (l : List α) (h : l ≠ []) :
    (x :: l).getLast?.getD z = l.getLast?.getD z := by
  cases l with
  | nil => exact absurd rfl h
  | cons y ys => rw [List.getLast?_cons_cons]

theorem walkChain_getLast_load (data : DataModel) :
    ∀ (ch : List Nat) (prev : Nat) (l d : Int),
      ((walkChain data ch prev l d).getLast?.getD (0, 0, 0)).2.1
        = l + chainLoad data ch + demandOf data 0 := by
  intro ch
  induction ch with
  | nil =>
    intro prev l d
    simp [walkChain, chainLoad]
  | cons c rest ih =>
    intro prev l d
    show ((_ :: walkChain data rest c _ _).getLast?.getD (0, 0, 0)).2.1 = _
    rw [getLast_getD_cons _ _ _ (walkChain_ne_nil data rest c _ _), ih, chainLoad_cons]
    ring

theorem routeOf_last_load (data : DataModel) (ch : List Nat) :
    ((routeOf data ch).getLast?.getD (0, 0, 0)).2.1
      = demandOf data 0 + chainLoad data ch + demandOf data 0 := by
  unfold routeOf
  rw [getLast_getD_cons _ _ _ (walkChain_ne_nil data ch 0 _ _)]
  exact walkChain_getLast_load data ch 0 _ _

theorem reportLoop_totals (data : DataModel) (chains : List (List Nat)) :
    ∀ (vs : List Nat) (t : Nat),
      (reportLoop data chains vs t).2.1
        = (vs.map fun v =>
            ((routeOf data (chains.getD v [])).getLast?.getD (0, 0, 0)).2.2).sum ∧
      (reportLoop data chains vs t).2.2
        = (vs.map fun v =>
            ((routeOf data (chains.getD v [])).getLast?.getD (0, 0, 0)).2.1).sum := by
  intro vs
  induction vs with
  | nil => intro t; exact ⟨rfl, rfl⟩
  | cons v rest ih =>
    intro t
    simp only [reportLoop, List.map_cons, List.sum_cons]
    split_ifs with h
    · exact ⟨by rw [(ih (t + 1)).1], by rw [(ih (t + 1)).2]⟩
    · exact ⟨by rw [(ih t).1], by rw [(ih t).2]⟩

theorem reportLoop_trip_sums (data : DataModel) (chains : List (List Nat))
    (hload0 : ((routeOf data ([] : List Nat)).getLast?.getD (0, 0, 0)).2.1 = 0)
    (hdist0 : ((routeOf data ([] : List Nat)).getLast?.getD (0, 0, 0)).2.2 = 0) :
    ∀ (vs : List Nat) (t : Nat),
      ((reportLoop data chains vs t).1.map
          fun tr => (tr.route.getLast?.getD (0, 0, 0)).2.2).sum
        = (reportLoop data chains vs t).2.1 ∧
      ((reportLoop data chains vs t).1.map
          fun tr => (tr.route.getLast?.getD (0, 0, 0)).2.1).sum
        = (reportLoop data chains vs t).2.2 := by
  intro vs
  induction vs with
  | nil => intro t; exact ⟨rfl, rfl⟩
  | cons v rest ih =>
    intro t
    by_cases h : chains.getD v [] = []
    · have h' : chains[v]?.getD [] = [] := by
        simpa [List.getD, List.get?_eq_getElem?] using h
      simp only [reportLoop]
      rw [if_neg (by rw [two_lt_routeOf_length]; simp [h'])]
      refine ⟨?_, ?_⟩
      · show ((reportLoop data chains rest t).1.map _).sum = _ + _
        rw [(ih t).1, h, hdist0, zero_add]
      · show ((reportLoop data chains rest t).1.map _).sum = _ + _
        rw [(ih t).2, h, hload0, zero_add]
    · simp only [reportLoop]
      rw [if_pos ((two_lt_routeOf_length data _).mpr h)]
      refine ⟨?_, ?_⟩
      · show (_ :: (reportLoop data chains rest (t + 1)).1.map _).sum = _
        rw [List.sum_cons, (ih (t + 1)).1]
      · show (_ :: (reportLoop data chains rest (t + 1)).1.map _).sum = _
        rw [List.sum_cons, (ih (t + 1)).2]

theorem sum_chainLoad (data : DataModel) :
    ∀ l : List (List Nat),
      (l.map (chainLoad data)).sum = (l.flatten.map (demandOf data)).sum := by
  intro l
  induction l with
  | nil => rfl
  | cons x rest ih =>
    rw [List.map_cons, List.sum_cons, List.flatten_cons, List.map_append,
      List.sum_append, ih]
    rfl

theorem map_getD_range' (ds : List Int) :
    (List.range' 1 ds.length).map (fun c => (0 :: ds).getD c 0) = ds := by
  rw [List.range'_eq_map_range, List.map_map]
  have hcomp : ((fun c => (0 :: ds).getD c 0) ∘ (fun i => 1 + i))
      = fun i => ds.getD i 0 := by
    funext i
    show (0 :: ds).getD (1 + i) 0 = ds.getD i 0
    rw [Nat.add_comm]
    rfl
  rw [hcomp, getD_range_map]

/-- C5: for every feasible solve, the reported grand total distance is the
sum of the reported routes' final distances, the grand total load the sum
of their final loads (vehicles with empty routes are excluded from the
report but contribute zero to the totals), and the grand total load equals
the sum of all customer demands. -/
theorem solve_totals (n cap : Int) (ds : List Int) (es : List (List Int))
    (data : DataModel) (chains : List (List Nat))
    (hd : create_data_model n cap ds es = some data)
    (hs : constructionHeuristic data = some chains)
    (h00 : entry es 0 0 = 0) :
    (print_solution data chains).total_distance
      = ((print_solution data chains).trips.map
          fun tr => (tr.route.getLast?.getD (0, 0, 0)).2.2).sum ∧
    (print_solution data chains).total_load
      = ((print_solution data chains).trips.map
          fun tr => (tr.route.getLast?.getD (0, 0, 0)).2.1).sum ∧
    (print_solution data chains).total_load = ds.sum := by
  obtain ⟨hdata, hn⟩ := create_data_model_eq hd
  obtain ⟨hgood, hun⟩ := greedyRun_some (goodState_init data) hs
  have hdm0 : demandOf data 0 = 0 := by rw [hdata]; rfl
  have hd00 : distOf data 0 0 = 0 := by rw [hdata]; exact h00
  have hload0 : ((routeOf data ([] : List Nat)).getLast?.getD (0, 0, 0)).2.1 = 0 := by
    rw [routeOf_last_load, hdm0]
    simp [chainLoad]
  have hdist0 : ((routeOf data ([] : List Nat)).getLast?.getD (0, 0, 0)).2.2 = 0 := by
    show distOf data 0 0 + distOf data 0 0 = 0
    rw [hd00]
    ring
  have hsums := reportLoop_trip_sums data chains hload0 hdist0
    (List.range (numVehicles data)) 1
  have htot := reportLoop_totals data chains (List.range (numVehicles data)) 1
  refine ⟨?_, ?_, ?_⟩
  · show (reportLoop data chains _ 1).2.1
      = ((reportLoop data chains _ 1).1.map _).sum
    rw [hsums.1]
  · show (reportLoop data chains _ 1).2.2
      = ((reportLoop data chains _ 1).1.map _).sum
    rw [hsums.2]
  · show (reportLoop data chains _ 1).2.2 = ds.sum
    rw [htot.2]
    have hmap1 : (List.range (numVehicles data)).map (fun v =>
        ((routeOf data (chains.getD v [])).getLast?.getD (0, 0, 0)).2.1)
        = (List.range (numVehicles data)).map (fun v =>
            chainLoad data (chains.getD v [])) := by
      apply List.map_congr_left
      intro v _
      rw [routeOf_last_load, hdm0]
      ring
    rw [hmap1, ← hgood.len_eq]
    have hmap2 : (List.range chains.length).map
        (fun v => chainLoad data (chains.getD v []))
        = chains.map (chainLoad data) := by
      calc (List.range chains.length).map (fun v => chainLoad data (chains.getD v []))
          = ((List.range chains.length).map fun v => chains.getD v []).map
              (chainLoad data) := by rw [List.map_map]; rfl
        _ = chains.map (chainLoad data) := by rw [getD_range_map]
    rw [hmap2, sum_chainLoad]
    have hperm : chains.flatten.Perm (List.range' 1 ds.length) := by
      apply List.perm_of_nodup_nodup_toFinset_eq hgood.nodup (List.nodup_range' 1 _)
      ext x
      simp only [List.mem_toFinset, List.mem_range'_1]
      constructor
      · intro hx
        have := hgood.mem_range x hx
        have hnum : numCustomers data = ds.length := by rw [hdata]; simp [numCustomers]
        rw [hnum] at this
        omega
      · intro hx
        apply unassigned_nil_covers hun hx.1
        have hnum : numCustomers data = ds.length := by rw [hdata]; simp [numCustomers]
        omega
    rw [(hperm.map (demandOf data)).sum_eq]
    have hdem : (List.range' 1 ds.length).map (demandOf data)
        = (List.range' 1 ds.length).map (fun c => (0 :: ds).getD c 0) := by
      apply List.map_congr_left
      intro c _
      rw [hdata]
      rfl
    rw [hdem, map_getD_range']

theorem greedyRun_none_of_big (data : DataModel)
    (hdem : ∀ i, 0 ≤ demandOf data i) (c₀ : Nat)
    (hbig : ∀ v < numVehicles data, capOf data v < demandOf data c₀) :
    ∀ (fuel : Nat) (chains : List (List Nat)),
      c₀ ∈ unassigned data chains → greedyRun data fuel chains = none := by
  intro fuel
  induction fuel with
  | zero =>
    intro chains hmem
    simp only [greedyRun]
    rw [if_neg (List.ne_nil_of_mem hmem)]
  | succ m ih =>
    intro chains hmem
    simp only [greedyRun]
    rw [if_neg (List.ne_nil_of_mem hmem)]
    cases hs : selectPair data chains with
    | none => rfl
    | some p =>
      obtain ⟨v, c⟩ := p
      obtain ⟨hv, hcu, hf⟩ := mem_candidatePairs.mp (pickMin_mem hs)
      have hload : 0 ≤ chainLoad data (chains.getD v []) := by
        apply List.sum_nonneg
        intro x hx
        obtain ⟨y, hy, rfl⟩ := List.mem_map.mp hx
        exact hdem y
      have hne : c ≠ c₀ := by
        intro hceq
        subst hceq
        unfold feasiblePair at hf
        dsimp only at hf
        have := hbig v hv
        omega
      apply ih
      obtain ⟨h1, h2, h3⟩ := mem_unassigned.mp hmem
      apply mem_unassigned.mpr
      refine ⟨h1, h2, ?_⟩
      by_cases hvlen : v < chains.length
      · intro hin
        rcases List.mem_cons.mp ((flatten_applyStep hvlen).mem_iff.mp hin) with hc | hold
        · exact hne hc.symm
        · exact h3 hold
      · push_neg at hvlen
        show c₀ ∉ (applyStep chains (v, c)).flatten
        unfold applyStep
        rw [List.set_eq_of_length_le hvlen]
        exact h3

theorem unassigned_ne_nil_of_overload (data : DataModel) (cap : Int)
    (hcap : ∀ v < numVehicles data, capOf data v ≤ cap) (hcap0 : 0 ≤ cap)
    (hbig : (numVehicles data : Int) * cap
      < ((List.range' 1 (numCustomers data)).map (demandOf data)).sum)
    {chains : List (List Nat)} (hg : GoodState data chains) :
    unassigned data chains ≠ [] := by
  intro hun
  have hperm : chains.flatten.Perm (List.range' 1 (numCustomers data)) := by
    apply List.perm_of_nodup_nodup_toFinset_eq hg.nodup (List.nodup_range' 1 _)
    ext x
    simp only [List.mem_toFinset, List.mem_range'_1]
    constructor
    · intro hx
      have := hg.mem_range x hx
      omega
    · intro hx
      exact unassigned_nil_covers hun hx.1 (by omega)
  have hloads : ∀ ch ∈ chains, chainLoad data ch ≤ cap := by
    intro ch hch
    obtain ⟨i, hi, rfl⟩ := List.mem_iff_getElem.mp hch
    have hgetd : chains.getD i [] = chains[i] := List.getD_eq_getElem chains [] hi
    have hinv : i < numVehicles data := by rw [← hg.len_eq]; exact hi
    cases hchlen : chains[i].length with
    | zero =>
      have : chains[i] = [] := List.length_eq_zero.mp hchlen
      rw [this]
      simpa [chainLoad] using hcap0
    | succ k =>
      have hp := hg.prefix_le i hinv chains[i].length (by omega)
        (by rw [hgetd])
      rw [hgetd, List.take_length] at hp
      exact le_trans hp (hcap i hinv)
  have hsum : (chains.map (chainLoad data)).sum ≤ (chains.length : Int) * cap := by
    have := List.sum_le_card_nsmul (chains.map (chainLoad data)) cap ?bound
    · rwa [List.length_map, nsmul_eq_mul] at this
    case bound =>
      intro x hx
      obtain ⟨ch, hch, rfl⟩ := List.mem_map.mp hx
      exact hloads ch hch
  have heq : ((List.range' 1 (numCustomers data)).map (demandOf data)).sum
      = (chains.map (chainLoad data)).sum := by
    rw [sum_chainLoad]
    exact ((hperm.map (demandOf data)).sum_eq).symm
  rw [heq] at hbig
  rw [hg.len_eq] at hsum
  exact absurd hsum (not_le.mpr hbig)

theorem greedyRun_none_of_overload (data : DataModel) (cap : Int)
    (hcap : ∀ v < numVehicles data, capOf data v ≤ cap) (hcap0 : 0 ≤ cap)
    (hbig : (numVehicles data : Int) * cap
      < ((List.range' 1 (numCustomers data)).map (demandOf data)).sum) :
    ∀ (fuel : Nat) (chains : List (List Nat)), GoodState data chains →
      greedyRun data fuel chains = none := by
  intro fuel
  induction fuel with
  | zero =>
    intro chains hg
    simp only [greedyRun]
    rw [if_neg (unassigned_ne_nil_of_overload data cap hcap hcap0 hbig hg)]
  | succ m ih =>
    intro chains hg
    simp only [greedyRun]
    rw [if_neg (unassigned_ne_nil_of_overload data cap hcap hcap0 hbig hg)]
    cases hs : selectPair data chains with
    | none => rfl
    | some p => exact ih _ (goodState_step hg hs)

/-- C3: on every valid input whose total demand exceeds
`num_vehicles × vehicle_capacity`, or in which one customer's demand
exceeds the vehicle capacity, `solve_routing_problem` returns exactly
the string "No solution found." and no routes. -/
theorem solve_infeasible (n cap : Int) (ds : List Int) (es : List (List Int))
    (hn : (ds.length : Int) = n) (hds : ∀ x ∈ ds, 0 ≤ x) (hcap : 0 ≤ cap)
    (hbad : n * cap < ds.sum ∨ ∃ x ∈ ds, cap < x) :
    solve_routing_problem n cap ds es = some "No solution found." := by
  have hd : create_data_model n cap ds es
      = some ⟨es, 0 :: ds, List.replicate n.toNat cap, n, 0⟩ := by
    unfold create_data_model
    dsimp only
    rw [if_pos]
    simp only [List.length_cons]
    push_cast
    omega
  have hdem : ∀ i, 0 ≤ demandOf (⟨es, 0 :: ds,
      List.replicate n.toNat cap, n, 0⟩ : DataModel) i := by
    intro i
    apply getD_nonneg
    intro x hx
    rcases List.mem_cons.mp hx with rfl | hx'
    · exact le_refl 0
    · exact hds x hx'
  have hnv : numVehicles (⟨es, 0 :: ds,
      List.replicate n.toNat cap, n, 0⟩ : DataModel) = ds.length := by
    simp only [numVehicles]
    omega
  have hnc : numCustomers (⟨es, 0 :: ds,
      List.replicate n.toNat cap, n, 0⟩ : DataModel) = ds.length := by
    simp [numCustomers]
  have hnone : constructionHeuristic
      ⟨es, 0 :: ds, List.replicate n.toNat cap, n, 0⟩ = none := by
    rcases hbad with hsum | ⟨x, hx, hcapx⟩
    · apply greedyRun_none_of_overload _ cap ?hcaps hcap ?hbig _ _ (goodState_init _)
      case hcaps =>
        intro v hv
        rw [hnv] at hv
        have : v < n.toNat := by omega
        rw [show capOf (⟨es, 0 :: ds, List.replicate n.toNat cap, n, 0⟩ : DataModel) v
          = (List.replicate n.toNat cap).getD v 0 from rfl,
          getD_replicate_of_lt cap 0 this]
      case hbig =>
        rw [hnc, hnv]
        have hmap : (List.range' 1 ds.length).map
            (demandOf (⟨es, 0 :: ds, List.replicate n.toNat cap, n, 0⟩ : DataModel))
            = (List.range' 1 ds.length).map (fun c => (0 :: ds).getD c 0) := rfl
        rw [hmap, map_getD_range', hn]
        exact hsum
    · obtain ⟨k, hk, hkx⟩ := List.mem_iff_getElem.mp hx
      apply greedyRun_none_of_big _ hdem (k + 1) ?hbig _ _ ?hmem
      case hbig =>
        intro v hv
        rw [hnv] at hv
        have hvlt : v < n.toNat := by omega
        have hcapeq : capOf (⟨es, 0 :: ds,
            List.replicate n.toNat cap, n, 0⟩ : DataModel) v = cap :=
          getD_replicate_of_lt cap 0 hvlt
        have hdemeq : demandOf (⟨es, 0 :: ds,
            List.replicate n.toNat cap, n, 0⟩ : DataModel) (k + 1) = x := by
          show (0 :: ds).getD (k + 1) 0 = x
          show ds.getD k 0 = x
          rw [List.getD_eq_getElem ds 0 hk]
          exact hkx
        rw [hcapeq, hdemeq]
        exact hcapx
      case hmem =>
        apply mem_unassigned.mpr
        refine ⟨by omega, by rw [hnc]; omega, ?_⟩
        intro hin
        have : (List.replicate (numVehicles (⟨es, 0 :: ds,
            List.replicate n.toNat cap, n, 0⟩ : DataModel)) ([] : List Nat)).flatten
            = [] := by simp
        rw [this] at hin
        cases hin
  unfold solve_routing_problem
  rw [hd]
  dsimp only
  rw [hnone]

theorem mem_filterMap_vc {data : DataModel} {chains : List (List Nat)}
    {v : Nat} {p : Nat × Nat} {cs : List Nat}
    (h : p ∈ (cs.filterMap fun c =>
      if feasiblePair data chains v c then some (v, c) else none)) :
    p.1 = v ∧ p.2 ∈ cs := by
  obtain ⟨c, hc, hif⟩ := List.mem_filterMap.mp h
  split_ifs at hif
  cases hif
  exact ⟨rfl, hc⟩

theorem filterMap_pairwise_vc (data : DataModel) (chains : List (List Nat)) (v : Nat) :
    ∀ (cs : List Nat), cs.Pairwise (· < ·) →
      (cs.filterMap fun c =>
          if feasiblePair data chains v c then some (v, c) else none).Pairwise
        (fun p q => p.1 < q.1 ∨ (p.1 = q.1 ∧ p.2 < q.2)) := by
  intro cs
  induction cs with
  | nil => intro _; exact List.Pairwise.nil
  | cons c rest ih =>
    intro hpw
    obtain ⟨hhead, htail⟩ := List.pairwise_cons.mp hpw
    by_cases hfc : feasiblePair data chains v c
    · have hstep : (c :: rest).filterMap (fun c =>
          if feasiblePair data chains v c then some (v, c) else none)
          = (v, c) :: rest.filterMap (fun c =>
              if feasiblePair data chains v c then some (v, c) else none) := by
        rw [List.filterMap_cons, if_pos hfc]
      rw [hstep]
      apply List.pairwise_cons.mpr
      refine ⟨?_, ih htail⟩
      intro q hq
      obtain ⟨hq1, hq2⟩ := mem_filterMap_vc hq
      exact Or.inr ⟨hq1.symm, hhead q.2 hq2⟩
    · have hstep : (c :: rest).filterMap (fun c =>
          if feasiblePair data chains v c then some (v, c) else none)
          = rest.filterMap (fun c =>
              if feasiblePair data chains v c then some (v, c) else none) := by
        rw [List.filterMap_cons, if_neg hfc]
      rw [hstep]
      exact ih htail

theorem candidatePairs_pairwise (data : DataModel) (chains : List (List Nat)) :
    (candidatePairs data chains).Pairwise
      (fun p q => p.1 < q.1 ∨ (p.1 = q.1 ∧ p.2 < q.2)) := by
  have hunass : (unassigned data chains).Pairwise (· < ·) :=
    (List.pairwise_lt_range' 1 (numCustomers data)).filter _
  unfold candidatePairs
  have hrange : (List.range (numVehicles data)).Pairwise (· < ·) :=
    List.pairwise_lt_range (numVehicles data)
  generalize List.range (numVehicles data) = vs at hrange
  induction vs with
  | nil => exact List.Pairwise.nil
  | cons v rest ih =>
    obtain ⟨hhead, htail⟩ := List.pairwise_cons.mp hrange
    rw [List.flatMap_cons, List.pairwise_append]
    refine ⟨filterMap_pairwise_vc data chains v _ hunass, ih htail, ?_⟩
    intro x hx y hy
    obtain ⟨hx1, _⟩ := mem_filterMap_vc hx
    obtain ⟨w, hw, hyw⟩ := List.mem_flatMap.mp hy
    obtain ⟨hy1, _⟩ := mem_filterMap_vc hyw
    left
    rw [hx1, hy1]
    exact hhead w hw

/-- C4: the construction step realizes the cheapest-feasible-arc greedy
selection of the specification.  `selectPair` fails exactly when no
(vehicle, unvisited customer) pair is capacity-feasible; otherwise the
selected pair is such a pair of minimal arc cost from the vehicle's current
route end, and on cost ties it is the pair of lowest vehicle index, then
lowest customer id, among the minimisers.  Appending the customer, marking
it visited (`applyStep`), looping until all customers are assigned
(`greedyRun`) and closing every chain at the depot (`routeOf`) are the
definitions themselves. -/
theorem heuristic_step_spec (data : DataModel) (chains : List (List Nat)) :
    (selectPair data chains = none ↔ candidatePairs data chains = []) ∧
    ∀ p, selectPair data chains = some p →
      p.1 < numVehicles data ∧ p.2 ∈ unassigned data chains ∧
      feasiblePair data chains p.1 p.2 ∧
      ∀ q ∈ candidatePairs data chains,
        pairCost data chains p ≤ pairCost data chains q ∧
        (pairCost data chains p = pairCost data chains q →
          p = q ∨ p.1 < q.1 ∨ (p.1 = q.1 ∧ p.2 < q.2)) := by
  constructor
  · exact pickMin_eq_none
  · intro p hp
    obtain ⟨h1, h2, h3⟩ := mem_candidatePairs.mp (pickMin_mem hp)
    refine ⟨h1, h2, h3, ?_⟩
    intro q hq
    refine ⟨pickMin_le hp q hq, ?_⟩
    intro hcq
    exact pickMin_first _ (candidatePairs_pairwise data chains) hp q hq hcq

/-! ## The example instance -/

/-- C8 counterexample: on the example instance (2 customers, demands
`[3, 4]`, capacity 10, matrix `[[0,1,2],[1,0,3],[2,3,0]]`) the modelled
cheapest-feasible-arc greedy of the specification produces TWO non-empty
routes, not one: after vehicle 0 takes customer 1 (arc cost 1), reaching
customer 2 from vehicle 1's depot start (cost 2) is cheaper than from
customer 1 (cost 3). -/
theorem example_routes_counterexample :
    create_data_model 2 10 [3, 4] [[0, 1, 2], [1, 0, 3], [2, 3, 0]]
      = some ⟨[[0, 1, 2], [1, 0, 3], [2, 3, 0]], [0, 3, 4], [10, 10], 2, 0⟩ ∧
    constructionHeuristic
        ⟨[[0, 1, 2], [1, 0, 3], [2, 3, 0]], [0, 3, 4], [10, 10], 2, 0⟩
      = some [[1], [2]] ∧
    (print_solution ⟨[[0, 1, 2], [1, 0, 3], [2, 3, 0]], [0, 3, 4], [10, 10], 2, 0⟩
        [[1], [2]]).trips.length = 2 ∧
    ¬ (print_solution ⟨[[0, 1, 2], [1, 0, 3], [2, 3, 0]], [0, 3, 4], [10, 10], 2, 0⟩
        [[1], [2]]).trips.length = 1 :=
  ⟨rfl, rfl, rfl, by decide⟩

/-- C8 (amended): on the example instance the solver produces exactly two
non-empty routes — trip 1 visits customer 1 (final load 3, final distance
2) and trip 2 visits customer 2 (final load 4, final distance 4) — with
grand total distance 6 and grand total load 7. -/
theorem example_report :
    create_data_model 2 10 [3, 4] [[0, 1, 2], [1, 0, 3], [2, 3, 0]]
      = some ⟨[[0, 1, 2], [1, 0, 3], [2, 3, 0]], [0, 3, 4], [10, 10], 2, 0⟩ ∧
    constructionHeuristic
        ⟨[[0, 1, 2], [1, 0, 3], [2, 3, 0]], [0, 3, 4], [10, 10], 2, 0⟩
      = some [[1], [2]] ∧
    print_solution ⟨[[0, 1, 2], [1, 0, 3], [2, 3, 0]], [0, 3, 4], [10, 10], 2, 0⟩
        [[1], [2]]
      = ⟨[⟨1, [(0, 0, 0), (1, 3, 1), (0, 3, 2)]⟩,
          ⟨2, [(0, 0, 0), (2, 4, 2), (0, 4, 4)]⟩], 6, 7⟩ :=
  ⟨rfl, rfl, rfl⟩

/-! ## Witnesses for the conditional theorems -/

theorem solve_capacity_witness :
    (∀ x ∈ ([3, 4] : List Int), 0 ≤ x) ∧
    ∀ tr ∈ (print_solution
        (⟨[[0, 1, 2], [1, 0, 3], [2, 3, 0]], [0, 3, 4], [10, 10], 2, 0⟩ : DataModel)
        [[1], [2]]).trips,
      ((tr.route.getD 0 (0, 0, 0)).2.1 = 0) ∧
      (∀ i, i + 1 < tr.route.length →
        (tr.route.getD (i + 1) (0, 0, 0)).2.1
          = (tr.route.getD i (0, 0, 0)).2.1
            + demandOf (⟨[[0, 1, 2], [1, 0, 3], [2, 3, 0]],
                [0, 3, 4], [10, 10], 2, 0⟩ : DataModel)
              ((tr.route.getD (i + 1) (0, 0, 0)).1)) ∧
      (∀ e ∈ tr.route, e.2.1 ≤ (10 : Int)) := by
  refine ⟨by decide, ?_⟩
  exact solve_capacity 2 10 [3, 4] [[0, 1, 2], [1, 0, 3], [2, 3, 0]] _ [[1], [2]]
    rfl rfl (by decide)

theorem solve_coverage_witness :
    (1 : Nat) ≤ 1 ∧ (1 : Nat) ≤ ([3, 4] : List Int).length ∧
    (((print_solution
        (⟨[[0, 1, 2], [1, 0, 3], [2, 3, 0]], [0, 3, 4], [10, 10], 2, 0⟩ : DataModel)
        [[1], [2]]).trips.map
      fun tr => tr.route.map Prod.fst).flatten.count 1) = 1 := by
  refine ⟨le_refl 1, by decide, ?_⟩
  exact solve_coverage 2 10 [3, 4] [[0, 1, 2], [1, 0, 3], [2, 3, 0]] _ [[1], [2]]
    rfl rfl 1 (le_refl 1) (by decide)

theorem solve_infeasible_witness :
    (([11] : List Int).length : Int) = 1 ∧ (0 : Int) ≤ 10 ∧
    solve_routing_problem 1 10 [11] [[0, 5], [5, 0]] = some "No solution found." := by
  refine ⟨by decide, by decide, ?_⟩
  exact solve_infeasible 1 10 [11] [[0, 5], [5, 0]] (by decide) (by decide) (by decide)
    (Or.inr (by decide))

theorem heuristic_step_spec_witness :
    (0 : Nat) < numVehicles
        (⟨[[0, 1, 2], [1, 0, 3], [2, 3, 0]], [0, 3, 4], [10, 10], 2, 0⟩ : DataModel) ∧
    (1 : Nat) ∈ unassigned
        (⟨[[0, 1, 2], [1, 0, 3], [2, 3, 0]], [0, 3, 4], [10, 10], 2, 0⟩ : DataModel)
        [[], []] ∧
    feasiblePair
        (⟨[[0, 1, 2], [1, 0, 3], [2, 3, 0]], [0, 3, 4], [10, 10], 2, 0⟩ : DataModel)
        [[], []] 0 1 ∧
    ∀ q ∈ candidatePairs
        (⟨[[0, 1, 2], [1, 0, 3], [2, 3, 0]], [0, 3, 4], [10, 10], 2, 0⟩ : DataModel)
        [[], []],
      pairCost (⟨[[0, 1, 2], [1, 0, 3], [2, 3, 0]],
          [0, 3, 4], [10, 10], 2, 0⟩ : DataModel) [[], []] (0, 1)
        ≤ pairCost (⟨[[0, 1, 2], [1, 0, 3], [2, 3, 0]],
            [0, 3, 4], [10, 10], 2, 0⟩ : DataModel) [[], []] q ∧
      (pairCost (⟨[[0, 1, 2], [1, 0, 3], [2, 3, 0]],
          [0, 3, 4], [10, 10], 2, 0⟩ : DataModel) [[], []] (0, 1)
        = pairCost (⟨[[0, 1, 2], [1, 0, 3], [2, 3, 0]],
            [0, 3, 4], [10, 10], 2, 0⟩ : DataModel) [[], []] q →
        ((0, 1) : Nat × Nat) = q ∨ (0 : Nat) < q.1 ∨ ((0 : Nat) = q.1 ∧ 1 < q.2)) := by
  exact (heuristic_step_spec
    (⟨[[0, 1, 2], [1, 0, 3], [2, 3, 0]], [0, 3, 4], [10, 10], 2, 0⟩ : DataModel)
    [[], []]).2 (0, 1) rfl

theorem solve_totals_witness :
    entry [[0, 1, 2], [1, 0, 3], [2, 3, 0]] 0 0 = 0 ∧
    ((print_solution
        (⟨[[0, 1, 2], [1, 0, 3], [2, 3, 0]], [0, 3, 4], [10, 10], 2, 0⟩ : DataModel)
        [[1], [2]]).total_distance
      = ((print_solution
          (⟨[[0, 1, 2], [1, 0, 3], [2, 3, 0]], [0, 3, 4], [10, 10], 2, 0⟩ : DataModel)
          [[1], [2]]).trips.map
        fun tr => (tr.route.getLast?.getD (0, 0, 0)).2.2).sum ∧
    (print_solution
        (⟨[[0, 1, 2], [1, 0, 3], [2, 3, 0]], [0, 3, 4], [10, 10], 2, 0⟩ : DataModel)
        [[1], [2]]).total_load
      = ((print_solution
          (⟨[[0, 1, 2], [1, 0, 3], [2, 3, 0]], [0, 3, 4], [10, 10], 2, 0⟩ : DataModel)
          [[1], [2]]).trips.map
        fun tr => (tr.route.getLast?.getD (0, 0, 0)).2.1).sum ∧
    (print_solution
        (⟨[[0, 1, 2], [1, 0, 3], [2, 3, 0]], [0, 3, 4], [10, 10], 2, 0⟩ : DataModel)
        [[1], [2]]).total_load = ([3, 4] : List Int).sum) := by
  refine ⟨rfl, ?_⟩
  exact solve_totals 2 10 [3, 4] [[0, 1, 2], [1, 0, 3], [2, 3, 0]] _ [[1], [2]]
    rfl rfl rfl

/-- C10: the trip numbers of the reported routes are the consecutive
integers starting at 1, and there are exactly as many of them as vehicles
whose route visits at least one customer — an empty route consumes no
trip number. -/
theorem print_solution_trip_numbers (data : DataModel) (chains : List (List Nat)) :
    (print_solution data chains).trips.map TripReport.trip
      = List.range' 1 (print_solution data chains).trips.length ∧
    (print_solution data chains).trips.length
      = ((List.range (numVehicles data)).filter
          fun v => decide (chains.getD v [] ≠ [])).length := by
  exact ⟨reportLoop_trip_numbers data chains _ 1, reportLoop_trips_length data chains _ 1⟩

end VRP
